import Mathlib

/-!
Shallow embedding of the Api_Magnum order/stock/price/sequence core.

Collections of the document store are modelled as Lean lists of records;
`where`-filtered `limit(1)` queries become first-match list searches, document
updates become in-place list rewrites, and JavaScript numbers carrying
quantities, prices and totals become `Int`.  Each controller/model function of
the source is translated into a pure Lean function from the relevant state to
a (result, new state) pair; thrown errors and early HTTP error returns become
explicit result constructors.
-/

/-- A document of the `stocks` collection (src/models/stockModel.js,
constructor).  `cantidad` is the stored quantity, `activo` the lifecycle
flag; `minimo` and `ubicacion` are carried but not consulted by the
operations verified here. -/
structure StockRecord where
  productoId : String
  cantidad : Int
  minimo : Int
  activo : Bool
  deriving Repr, DecidableEq

/-- Model of `Stock.findByProductoId` (stockModel.js lines 77-99): first document of
`stocks` matching `productoId == pid && activo == true` (the `limit(1)`
query), or `none` when the snapshot is empty. -/
def findByProductoId (pid : String) : List StockRecord → Option StockRecord
  | [] => none
  | s :: rest =>
    if s.productoId = pid ∧ s.activo then some s else findByProductoId pid rest

/-- The document rewrite performed by `Stock.updateCantidad` once the active
record has been found: the first active record for `pid` gets
`cantidad := q`, every other document is untouched. -/
def updateCantidadList (pid : String) (q : Int) : List StockRecord → List StockRecord
  | [] => []
  | s :: rest =>
    if s.productoId = pid ∧ s.activo then { s with cantidad := q } :: rest
    else s :: updateCantidadList pid q rest

/-- Model of `Stock.updateCantidad` (stockModel.js lines 107-129): re-finds the active
record for `pid`; throws (`none`) when there is none, otherwise updates its
`cantidad` field. -/
def updateCantidad (pid : String) (q : Int) (stocks : List StockRecord) :
    Option (List StockRecord) :=
  match findByProductoId pid stocks with
  | none => none
  | some _ => some (updateCantidadList pid q stocks)

/-- Every stored stock quantity is nonnegative (the spec's stock invariant). -/
def allNonneg (stocks : List StockRecord) : Prop :=
  ∀ s ∈ stocks, 0 ≤ s.cantidad

instance : DecidablePred allNonneg := fun stocks =>
  inferInstanceAs (Decidable (∀ s ∈ stocks, 0 ≤ s.cantidad))

theorem findByProductoId_mem {pid : String} {stocks : List StockRecord}
    {s : StockRecord} (h : findByProductoId pid stocks = some s) : s ∈ stocks := by
  induction stocks with
  | nil => simp [findByProductoId] at h
  | cons x rest ih =>
    by_cases hx : x.productoId = pid ∧ x.activo
    · simp [findByProductoId, hx] at h
      simp [← h]
    · simp [findByProductoId, hx] at h
      exact List.mem_cons_of_mem x (ih h)

theorem findByProductoId_spec {pid : String} {stocks : List StockRecord}
    {s : StockRecord} (h : findByProductoId pid stocks = some s) :
    s.productoId = pid ∧ s.activo := by
  induction stocks with
  | nil => simp [findByProductoId] at h
  | cons x rest ih =>
    by_cases hx : x.productoId = pid ∧ x.activo
    · simp [findByProductoId, hx] at h
      exact h ▸ hx
    · simp [findByProductoId, hx] at h
      exact ih h

/-- When no active record exists, the rewrite is the identity. -/
theorem updateCantidadList_of_none {pid : String} {q : Int} {stocks : List StockRecord}
    (h : findByProductoId pid stocks = none) :
    updateCantidadList pid q stocks = stocks := by
  induction stocks with
  | nil => rfl
  | cons x rest ih =>
    by_cases hx : x.productoId = pid ∧ x.activo
    · simp [findByProductoId, hx] at h
    · simp [findByProductoId, hx] at h
      simp [updateCantidadList, hx, ih h]

/-- After a rewrite for `pid`, looking up `pid` returns the found record with
its quantity overwritten. -/
theorem findByProductoId_updateCantidadList_self {pid : String} {q : Int}
    {stocks : List StockRecord} :
    findByProductoId pid (updateCantidadList pid q stocks)
      = (findByProductoId pid stocks).map (fun s => { s with cantidad := q }) := by
  induction stocks with
  | nil => rfl
  | cons x rest ih =>
    by_cases hx : x.productoId = pid ∧ x.activo
    · have hx' : x.productoId = pid ∧ x.activo := hx
      simp [updateCantidadList, hx, findByProductoId, hx'.1, hx'.2]
    · simp [updateCantidadList, hx, findByProductoId, ih]

/-- A rewrite for one product does not change lookups of another product. -/
theorem findByProductoId_updateCantidadList_other {pid pid' : String} {q : Int}
    {stocks : List StockRecord} (hne : pid' ≠ pid) :
    findByProductoId pid' (updateCantidadList pid q stocks)
      = findByProductoId pid' stocks := by
  induction stocks with
  | nil => rfl
  | cons x rest ih =>
    by_cases hx : x.productoId = pid ∧ x.activo
    · simp [updateCantidadList, hx, findByProductoId]
      rw [if_neg (fun h => hne (h.symm)), if_neg (fun h => hne (h.symm))]
    · simp [updateCantidadList, hx, findByProductoId, ih]

/-- Rewriting with a nonnegative quantity preserves the nonnegativity
invariant. -/
theorem allNonneg_updateCantidadList {pid : String} {q : Int}
    {stocks : List StockRecord} (hq : 0 ≤ q) (h : allNonneg stocks) :
    allNonneg (updateCantidadList pid q stocks) := by
  induction stocks with
  | nil => intro s hs; simp [updateCantidadList] at hs
  | cons x rest ih =>
    intro s hs
    by_cases hx : x.productoId = pid ∧ x.activo
    · simp [updateCantidadList, hx] at hs
      rcases hs with hs | hs
      · simp [hs, hq]
      · exact h s (List.mem_cons_of_mem x hs)
    · simp [updateCantidadList, hx] at hs
      rcases hs with hs | hs
      · exact h s (by simp [hs])
      · exact ih (fun t ht => h t (List.mem_cons_of_mem x ht)) s hs

/-- One line item of an order request: `{productoId, cantidad, precio}`
(pedidoModel.js comment on `this.productos`). -/
structure LineItem where
  productoId : String
  cantidad : Int
  precio : Int
  deriving Repr, DecidableEq

/-- A document of the `pedidos` collection, restricted to the fields the
verified operations read or write (pedidoModel.js `save`). -/
structure Pedido where
  id : String
  numero : String
  productos : List LineItem
  total : Int
  estado : String
  fechaCreacion : Nat
  deriving Repr, DecidableEq

/-- The mutable store state touched by the order flow: the `stocks` and
`pedidos` collections. -/
structure World where
  stocks : List StockRecord
  pedidos : List Pedido
  deriving Repr, DecidableEq

/-- JavaScript `String(n).padStart(w, c)` for a natural number rendering:
prepends `w - length` copies of `c` (none when already long enough). -/
def padStart (w : Nat) (c : Char) (s : String) : String :=
  String.mk (List.replicate (w - s.length) c) ++ s

/-- Model of `Pedido.generarNumeroPedido` (pedidoModel.js lines 44-57): counts the
pedidos whose `fechaCreacion` is at or after the first instant of the current
month (`firstDay`), adds one, and formats
`PED-YYYYMM-NNNN` with the month zero-padded to 2 and the consecutive number
zero-padded to 4 digits.  `year` and `month` stand for `getFullYear()` and
`getMonth() + 1` of the current date. -/
def generarNumeroPedido (year month : Nat) (firstDay : Nat)
    (pedidos : List Pedido) : String :=
  let consecutivo := (pedidos.filter (fun p => firstDay ≤ p.fechaCreacion)).length + 1
  "PED-" ++ toString year ++ padStart 2 '0' (toString month) ++ "-"
    ++ padStart 4 '0' (toString consecutivo)

/-- Model of `Pedido.save` (pedidoModel.js lines 17-42): mints a fresh document id
(`refId`, the Firestore-generated `pedidoRef.id`), generates the order number
from the current `pedidos` collection, and appends the document.  `ts` is the
`fechaCreacion` timestamp taken in the constructor. -/
def pedidoSave (refId : String) (productos : List LineItem) (total : Int)
    (estado : String) (year month firstDay ts : Nat)
    (pedidos : List Pedido) : Pedido × List Pedido :=
  let ped : Pedido :=
    { id := refId
      numero := generarNumeroPedido year month firstDay pedidos
      productos := productos
      total := total
      estado := estado
      fechaCreacion := ts }
  (ped, pedidos ++ [ped])

/-- The stock-validation pass of `pedidoController.crearPedido`
(src/unnamed/part_004 lines 13-20): walks the line items in order and returns
the `productoId` of the first item whose product has no active stock record
or whose requested `cantidad` exceeds the stored quantity; `none` when every
item passes. -/
def validarStock (stocks : List StockRecord) : List LineItem → Option String
  | [] => none
  | item :: rest =>
    match findByProductoId item.productoId stocks with
    | none => some item.productoId
    | some stock =>
      if stock.cantidad < item.cantidad then some item.productoId
      else validarStock stocks rest

/-- The order total of `crearPedido` (part_004 line 23):
`productos.reduce((sum, item) => sum + item.precio * item.cantidad, 0)`. -/
def totalPedido (productos : List LineItem) : Int :=
  productos.foldl (fun sum item => sum + item.precio * item.cantidad) 0

/-- The stock-debit pass of `crearPedido` (part_004 lines 39-43): for each
line item in order, re-fetch the active stock record and write
`stock.cantidad - item.cantidad` through `Stock.updateCantidad`.  Returns
`none` when a fetch or update throws (no active record), which the controller
surfaces as a 500. -/
def debitStocks : List LineItem → List StockRecord → Option (List StockRecord)
  | [], stocks => some stocks
  | item :: rest, stocks =>
    match findByProductoId item.productoId stocks with
    | none => none
    | some stock =>
      match updateCantidad item.productoId (stock.cantidad - item.cantidad) stocks with
      | none => none
      | some stocks' => debitStocks rest stocks'

/-- Outcome of `pedidoController.crearPedido`. -/
inductive CrearPedidoResult where
  | insufficientStock (productoId : String)
  | created (pedido : Pedido)
  | serverError
  deriving Repr, DecidableEq

/-- Model of `pedidoController.crearPedido` (part_004 lines 6-58): validate every line
item against current stock (all reads before any write), compute the total,
persist the order with default status `"pendiente"`, then debit stock per
line item.  A failed validation returns 400 with the offending product id
and leaves the store untouched; a throw in the debit pass is caught as a 500
after the order has already been persisted. -/
def crearPedido (productos : List LineItem) (refId : String)
    (year month firstDay ts : Nat) (w : World) : CrearPedidoResult × World :=
  match validarStock w.stocks productos with
  | some pid => (.insufficientStock pid, w)
  | none =>
    let total := totalPedido productos
    let (ped, pedidos') :=
      pedidoSave refId productos total "pendiente" year month firstDay ts w.pedidos
    match debitStocks productos w.stocks with
    | none => (.serverError, { stocks := w.stocks, pedidos := pedidos' })
    | some stocks' => (.created ped, { stocks := stocks', pedidos := pedidos' })

/-- Outcome of `stockController.actualizarStock`. -/
inductive ActualizarStockResult where
  | notFound
  | ok
  | serverError
  deriving Repr, DecidableEq

/-- Model of `stockController.actualizarStock` (stockController.js lines 121-169),
restricted to the quantity update: 404 when no active stock record exists;
otherwise, when a `cantidad` is supplied, it is written through
`Stock.updateCantidad` with no further validation.  The `minimo`/`ubicacion`
updates touch neither `cantidad` nor `activo` and are omitted. -/
def actualizarStock (pid : String) (cantidad : Option Int)
    (stocks : List StockRecord) : ActualizarStockResult × List StockRecord :=
  match findByProductoId pid stocks with
  | none => (.notFound, stocks)
  | some _ =>
    match cantidad with
    | none => (.ok, stocks)
    | some q =>
      match updateCantidad pid q stocks with
      | none => (.serverError, stocks)
      | some stocks' => (.ok, stocks')

/-- Outcome of `stockController.ajustarStock`; `ok` carries the response
fields `stockAnterior`, `stockNuevo` and `diferencia`. -/
inductive AjustarStockResult where
  | notFound
  | insufficient
  | invalidTipo
  | serverError
  | ok (stockAnterior stockNuevo diferencia : Int)
  deriving Repr, DecidableEq

/-- Model of `stockController.ajustarStock` (stockController.js lines 222-282): 404
when no active record exists; `"incrementar"` writes
`cantidad + delta` unconditionally; `"decrementar"` writes
`cantidad - delta` unless that is negative, in which case it returns 400 and
writes nothing; any other `tipo` is a 400.  The success response reports the
previous quantity, the new quantity, and the signed difference. -/
def ajustarStock (pid : String) (cantidad : Int) (tipo : String)
    (stocks : List StockRecord) : AjustarStockResult × List StockRecord :=
  match findByProductoId pid stocks with
  | none => (.notFound, stocks)
  | some stockExistente =>
    if tipo = "incrementar" then
      let nuevaCantidad := stockExistente.cantidad + cantidad
      match updateCantidad pid nuevaCantidad stocks with
      | none => (.serverError, stocks)
      | some stocks' =>
        (.ok stockExistente.cantidad nuevaCantidad cantidad, stocks')
    else if tipo = "decrementar" then
      let nuevaCantidad := stockExistente.cantidad - cantidad
      if nuevaCantidad < 0 then (.insufficient, stocks)
      else
        match updateCantidad pid nuevaCantidad stocks with
        | none => (.serverError, stocks)
        | some stocks' =>
          (.ok stockExistente.cantidad nuevaCantidad (-cantidad), stocks')
    else (.invalidTipo, stocks)

/-- The list of recognized order states of `pedidoController.actualizarEstado`
(part_004 line 124).  The spec names them pending, confirmed, in_process,
shipped, delivered, cancelled. -/
def estadosValidos : List String :=
  ["pendiente", "confirmado", "en_proceso", "enviado", "entregado", "cancelado"]

/-- Outcome of `pedidoController.actualizarEstado`. -/
inductive ActualizarEstadoResult where
  | invalidEstado
  | serverError
  | ok
  deriving Repr, DecidableEq

/-- The document rewrite of `Pedido.updateEstado`: the pedido with document id
`id` gets `estado := nuevoEstado`. -/
def updateEstadoList (id nuevoEstado : String) : List Pedido → List Pedido :=
  List.map (fun p => if p.id = id then { p with estado := nuevoEstado } else p)

/-- Model of `pedidoController.actualizarEstado` (part_004 lines 119-147): 400 when
`estado` is not one of the six recognized tokens; otherwise
`Pedido.updateEstado` overwrites the state with no check of the current
state (a missing document makes the update throw, caught as a 500). -/
def actualizarEstado (id estado : String) (pedidos : List Pedido) :
    ActualizarEstadoResult × List Pedido :=
  if estado ∈ estadosValidos then
    if pedidos.any (fun p => p.id = id) then
      (.ok, updateEstadoList id estado pedidos)
    else (.serverError, pedidos)
  else (.invalidEstado, pedidos)

/-- A document of the `precios` collection (src/models/precioModel.js,
constructor), restricted to the fields the verified operations touch.
`fechaCreacion` is a logical timestamp: the store clock ticks once per
save, which models `new Date()` under a strictly increasing clock. -/
structure PrecioRecord where
  productoId : String
  precio : Int
  activo : Bool
  fechaCreacion : Nat
  deriving Repr, DecidableEq

/-- Model of `Precio.save` (precioModel.js lines 13-46) as called by
`precioController.crearPrecio` (no `activo` supplied, so the new record is
active): a batch update flips `activo := false` on every active record of the
product, then the new record is inserted with `activo := true` and the
current timestamp. -/
def precioSave (pid : String) (precio : Int) (st : List PrecioRecord × Nat) :
    List PrecioRecord × Nat :=
  let retirados := st.1.map (fun r =>
    if r.productoId = pid ∧ r.activo then { r with activo := false } else r)
  (retirados ++ [{ productoId := pid, precio := precio, activo := true,
                   fechaCreacion := st.2 }], st.2 + 1)

/-- Insert a price record into a list kept in descending `fechaCreacion`
order (the ordering contract of the store's `orderBy('fechaCreacion',
'desc')`). -/
def insertDesc (r : PrecioRecord) : List PrecioRecord → List PrecioRecord
  | [] => [r]
  | x :: xs =>
    if x.fechaCreacion ≤ r.fechaCreacion then r :: x :: xs
    else x :: insertDesc r xs

/-- Sort price records by `fechaCreacion` descending (insertion sort). -/
def sortByFechaDesc : List PrecioRecord → List PrecioRecord
  | [] => []
  | x :: xs => insertDesc x (sortByFechaDesc xs)

/-- Model of `Precio.findHistorialByProductoId` (precioModel.js lines 68-80): every
record of the product — current and retired — ordered by creation time
descending. -/
def findHistorialByProductoId (pid : String) (precios : List PrecioRecord) :
    List PrecioRecord :=
  sortByFechaDesc (precios.filter (fun r => r.productoId = pid))

/-- Run `Precio.save` once per price in `ps`, in order, single-threaded. -/
def iterateSaves (pid : String) (ps : List Int) (st : List PrecioRecord × Nat) :
    List PrecioRecord × Nat :=
  ps.foldl (fun s p => precioSave pid p s) st

/-- Model of `AutoIncrement.getInitialValue` (src/utils/autoIncrement.js lines 44-55):
the per-collection seed of the sequence counter, 1 for unmapped
collections. -/
def getInitialValue (collectionName : String) : Nat :=
  if collectionName = "productos" then 1000
  else if collectionName = "pedidos" then 2000
  else if collectionName = "categorias" then 100
  else if collectionName = "usuarios" then 10
  else if collectionName = "precios" then 5000
  else if collectionName = "stocks" then 3000
  else 1

/-- Model of `AutoIncrement.getNextSequence` (autoIncrement.js lines 8-40) on the
transaction's success path, single-threaded: the counter document is
`none` before first use; the first call seeds it with the initial value and
returns that value, every later call increments and returns the stored
sequence.  Result is (returned value, counter document afterwards). -/
def getNextSequence (collectionName : String) :
    Option Nat → Nat × Option Nat
  | none =>
    let seed := getInitialValue collectionName
    (seed, some seed)
  | some secuencia => (secuencia + 1, some (secuencia + 1))

/-- Counter document after `n` single-threaded calls for a collection,
starting from the lazily-created (absent) state. -/
def counterAfter (collectionName : String) : Nat → Option Nat
  | 0 => none
  | n + 1 => (getNextSequence collectionName (counterAfter collectionName n)).2

/-- Value returned by call number `n` (0-based) in a single-threaded run. -/
def callValue (collectionName : String) (n : Nat) : Nat :=
  (getNextSequence collectionName (counterAfter collectionName n)).1

/-- Total quantity requested for one product across the line items of a
placement. -/
def requested (pid : String) (items : List LineItem) : Int :=
  ((items.filter (fun it => it.productoId = pid)).map (fun it => it.cantidad)).sum

theorem requested_nil (pid : String) : requested pid [] = 0 := rfl

theorem requested_cons (pid : String) (item : LineItem) (rest : List LineItem) :
    requested pid (item :: rest)
      = (if item.productoId = pid then item.cantidad else 0) + requested pid rest := by
  by_cases h : item.productoId = pid
  · simp [requested, h]
  · simp [requested, h]

/-- The validation pass accepts exactly when every line item's product has an
active stock record holding at least the requested quantity. -/
theorem validarStock_eq_none_iff {stocks : List StockRecord}
    {items : List LineItem} :
    validarStock stocks items = none
      ↔ ∀ item ∈ items, ∃ st, findByProductoId item.productoId stocks = some st
          ∧ item.cantidad ≤ st.cantidad := by
  induction items with
  | nil => simp [validarStock]
  | cons item rest ih =>
    constructor
    · intro h
      cases hf : findByProductoId item.productoId stocks with
      | none => simp [validarStock, hf] at h
      | some st =>
        by_cases hc : st.cantidad < item.cantidad
        · simp [validarStock, hf, hc] at h
        · have hrest := (by simpa [validarStock, hf, hc] using h : validarStock stocks rest = none)
          intro it hit
          rcases List.mem_cons.mp hit with rfl | hit'
          · exact ⟨st, hf, le_of_not_lt hc⟩
          · exact ih.mp hrest it hit'
    · intro h
      rcases h item (List.mem_cons_self item rest) with ⟨st, hf, hle⟩
      have hrest : validarStock stocks rest = none :=
        ih.mpr (fun it hit => h it (List.mem_cons_of_mem item hit))
      simp [validarStock, hf, not_lt_of_le hle, hrest]

/-- When every line item's product has an active stock record, the debit pass
succeeds and afterwards each product's active quantity has dropped by exactly
the total quantity requested for it (the per-item debit re-reads the record,
so repeated products accumulate). -/
theorem debitStocks_some {items : List LineItem} {stocks : List StockRecord}
    (h : ∀ item ∈ items, (findByProductoId item.productoId stocks).isSome) :
    ∃ stocks', debitStocks items stocks = some stocks'
      ∧ ∀ pid, findByProductoId pid stocks'
          = (findByProductoId pid stocks).map
              (fun s => { s with cantidad := s.cantidad - requested pid items }) := by
  induction items generalizing stocks with
  | nil =>
    refine ⟨stocks, rfl, fun pid => ?_⟩
    cases hf : findByProductoId pid stocks with
    | none => rfl
    | some st => simp [requested_nil]
  | cons item rest ih =>
    have hitem := h item (List.mem_cons_self item rest)
    rcases Option.isSome_iff_exists.mp hitem with ⟨stock, hf⟩
    have hupd : updateCantidad item.productoId (stock.cantidad - item.cantidad) stocks
        = some (updateCantidadList item.productoId (stock.cantidad - item.cantidad) stocks) := by
      simp [updateCantidad, hf]
    set stocks1 := updateCantidadList item.productoId (stock.cantidad - item.cantidad) stocks
      with hstocks1
    have hfind1 : ∀ pid, findByProductoId pid stocks1
        = (findByProductoId pid stocks).map
            (fun s => if pid = item.productoId
              then { s with cantidad := stock.cantidad - item.cantidad } else s) := by
      intro pid
      by_cases hpid : pid = item.productoId
      · subst hpid
        rw [hstocks1, findByProductoId_updateCantidadList_self]
        simp
      · rw [hstocks1, findByProductoId_updateCantidadList_other hpid]
        cases hg : findByProductoId pid stocks with
        | none => rfl
        | some st => simp [hpid]
    have hrest : ∀ it ∈ rest, (findByProductoId it.productoId stocks1).isSome := by
      intro it hit
      rw [hfind1]
      have := h it (List.mem_cons_of_mem item hit)
      rcases Option.isSome_iff_exists.mp this with ⟨st, hst⟩
      simp [hst]
    rcases ih hrest with ⟨stocks', hdeb, hfinal⟩
    refine ⟨stocks', ?_, ?_⟩
    · simp [debitStocks, hf, hupd, hdeb]
    · intro pid
      rw [hfinal pid, hfind1 pid]
      by_cases hpid : pid = item.productoId
      · subst hpid
        rw [hf]
        have hfp := (findByProductoId_spec hf).1
        simp [Option.map, requested_cons, hfp]
        ring
      · cases hg : findByProductoId pid stocks with
        | none => rfl
        | some st =>
          have : item.productoId ≠ pid := fun hc => hpid hc.symm
          simp [Option.map, requested_cons, this, hpid]

/-- When the line items name pairwise-distinct products and each requested
quantity is covered by the active record, the debit pass preserves the
nonnegativity invariant. -/
theorem allNonneg_debitStocks {items : List LineItem} {stocks stocks' : List StockRecord}
    (hnn : allNonneg stocks)
    (hbound : ∀ item ∈ items, ∀ st,
      findByProductoId item.productoId stocks = some st → item.cantidad ≤ st.cantidad)
    (hnd : (items.map (fun it => it.productoId)).Nodup)
    (hdeb : debitStocks items stocks = some stocks') :
    allNonneg stocks' := by
  induction items generalizing stocks with
  | nil =>
    simp [debitStocks] at hdeb
    exact hdeb ▸ hnn
  | cons item rest ih =>
    rcases hx : findByProductoId item.productoId stocks with _ | stock
    · simp [debitStocks, hx] at hdeb
    · have hupd : updateCantidad item.productoId (stock.cantidad - item.cantidad) stocks
          = some (updateCantidadList item.productoId (stock.cantidad - item.cantidad) stocks) := by
        simp [updateCantidad, hx]
      have hdeb' : debitStocks rest
          (updateCantidadList item.productoId (stock.cantidad - item.cantidad) stocks)
          = some stocks' := by
        simpa [debitStocks, hx, hupd] using hdeb
      have hq : (0 : Int) ≤ stock.cantidad - item.cantidad :=
        sub_nonneg.mpr (hbound item (List.mem_cons_self item rest) stock hx)
      have hnn1 : allNonneg
          (updateCantidadList item.productoId (stock.cantidad - item.cantidad) stocks) :=
        allNonneg_updateCantidadList hq hnn
      have hnd2 : (∀ x ∈ rest, ¬x.productoId = item.productoId)
          ∧ (rest.map (fun it => it.productoId)).Nodup := by simpa using hnd
      have hnd' := hnd2.2
      have hne : ∀ it ∈ rest, it.productoId ≠ item.productoId :=
        fun it hit => hnd2.1 it hit
      refine ih hnn1 ?_ hnd' hdeb'
      intro it hit st hst
      have hfe : findByProductoId it.productoId
          (updateCantidadList item.productoId (stock.cantidad - item.cantidad) stocks)
          = findByProductoId it.productoId stocks :=
        findByProductoId_updateCantidadList_other (hne it hit)
      exact hbound it (List.mem_cons_of_mem item hit) st (hfe ▸ hst)

theorem foldl_add_map {α : Type} (f : α → Int) (l : List α) (init : Int) :
    l.foldl (fun s a => s + f a) init = init + (l.map f).sum := by
  induction l generalizing init with
  | nil => simp
  | cons x xs ih => simp [List.foldl_cons, ih, add_assoc]

/-- The order total is the sum of unit price times quantity over the line
items, exactly as supplied by the caller. -/
theorem totalPedido_eq_sum (productos : List LineItem) :
    totalPedido productos = (productos.map (fun it => it.precio * it.cantidad)).sum := by
  simpa [totalPedido] using foldl_add_map (fun it => it.precio * it.cantidad) productos 0

/-- Two successive quantity rewrites for the same product collapse to the
second one. -/
theorem updateCantidadList_updateCantidadList {pid : String} {q1 q2 : Int}
    {stocks : List StockRecord} :
    updateCantidadList pid q2 (updateCantidadList pid q1 stocks)
      = updateCantidadList pid q2 stocks := by
  induction stocks with
  | nil => rfl
  | cons x rest ih =>
    by_cases hx : x.productoId = pid ∧ x.activo
    · have hx' : ({ x with cantidad := q1 } : StockRecord).productoId = pid
          ∧ ({ x with cantidad := q1 } : StockRecord).activo := hx
      simp [updateCantidadList, hx, hx']
    · simp [updateCantidadList, hx, ih]

/-- Rewriting the found record's quantity to its own current value changes
nothing. -/
theorem updateCantidadList_found_self {pid : String} {stocks : List StockRecord}
    {st : StockRecord} (hf : findByProductoId pid stocks = some st) :
    updateCantidadList pid st.cantidad stocks = stocks := by
  induction stocks with
  | nil => rfl
  | cons x rest ih =>
    by_cases hx : x.productoId = pid ∧ x.activo
    · have hs : st = x := by
        have h2 := hf
        simp [findByProductoId, hx] at h2
        exact h2.symm
      subst hs
      show (if st.productoId = pid ∧ st.activo
        then { st with cantidad := st.cantidad } :: rest
        else st :: updateCantidadList pid st.cantidad rest) = st :: rest
      rw [if_pos hx]
    · have hf' : findByProductoId pid rest = some st := by
        simpa [findByProductoId, hx] using hf
      simp [updateCantidadList, hx, ih hf']

/-- C6: for a product with an active stock record holding quantity `q`,
`ajustarStock` with `"decrementar"` and `delta > q` fails with the
insufficient-stock error and leaves the store untouched; with `delta ≤ q` it
sets the quantity to `q - delta`; `"incrementar"` sets `q + delta`
unconditionally; and a success reports the previous quantity, the new
quantity and the signed delta. -/
theorem ajustarStock_contract (pid : String) (delta : Int)
    (stocks : List StockRecord) (st : StockRecord)
    (hf : findByProductoId pid stocks = some st) :
    (st.cantidad < delta →
      ajustarStock pid delta "decrementar" stocks = (.insufficient, stocks)) ∧
    (delta ≤ st.cantidad →
      (ajustarStock pid delta "decrementar" stocks).1
          = .ok st.cantidad (st.cantidad - delta) (-delta) ∧
      findByProductoId pid (ajustarStock pid delta "decrementar" stocks).2
          = some { st with cantidad := st.cantidad - delta }) ∧
    ((ajustarStock pid delta "incrementar" stocks).1
        = .ok st.cantidad (st.cantidad + delta) delta ∧
      findByProductoId pid (ajustarStock pid delta "incrementar" stocks).2
        = some { st with cantidad := st.cantidad + delta }) := by
  have hupd : ∀ q : Int, updateCantidad pid q stocks
      = some (updateCantidadList pid q stocks) := by
    intro q; simp [updateCantidad, hf]
  refine ⟨?_, ?_, ?_⟩
  · intro hlt
    have hneg : st.cantidad - delta < 0 := sub_neg.mpr hlt
    simp [ajustarStock, hf, hneg]
  · intro hle
    have hneg : ¬ st.cantidad - delta < 0 := not_lt.mpr (sub_nonneg.mpr hle)
    constructor
    · simp [ajustarStock, hf, hneg, hupd]
    · simp [ajustarStock, hf, hneg, hupd,
        findByProductoId_updateCantidadList_self]
  · constructor
    · simp [ajustarStock, hf, hupd]
    · simp [ajustarStock, hf, hupd, findByProductoId_updateCantidadList_self]

/-- Closed instance of the C6 contract: product with quantity 5, delta 7
decrease fails leaving quantity 5; delta 3 decrease yields 2; increase by 7
yields 12. -/
theorem ajustarStock_contract_witness :
    (findByProductoId "P1" [⟨"P1", 5, 5, true⟩] = some ⟨"P1", 5, 5, true⟩)
      ∧ ((5 : Int) < 7
          → ajustarStock "P1" 7 "decrementar" [⟨"P1", 5, 5, true⟩]
              = (.insufficient, [⟨"P1", 5, 5, true⟩])) := by
  refine ⟨by decide, ?_⟩
  intro h
  exact (ajustarStock_contract "P1" 7 [⟨"P1", 5, 5, true⟩] ⟨"P1", 5, 5, true⟩
    (by decide)).1 h

/-- C7: for a product with an active stock record holding a nonnegative
quantity, adjusting by `delta ≥ 0` with `"incrementar"` and then
`"decrementar"` succeeds in both steps and returns the `stocks` collection
exactly to its original state (round-trip identity); the second response
reports the intermediate quantity `q + delta`, the restored quantity `q`,
and the signed delta `-delta`. -/
theorem ajustarStock_roundtrip (pid : String) (delta : Int)
    (stocks : List StockRecord) (st : StockRecord)
    (hf : findByProductoId pid stocks = some st)
    (hq : 0 ≤ st.cantidad) (hd : 0 ≤ delta) :
    (ajustarStock pid delta "incrementar" stocks).1
        = .ok st.cantidad (st.cantidad + delta) delta ∧
    ajustarStock pid delta "decrementar"
        (ajustarStock pid delta "incrementar" stocks).2
      = (.ok (st.cantidad + delta) st.cantidad (-delta), stocks) := by
  have hupd : ∀ q : Int, updateCantidad pid q stocks
      = some (updateCantidadList pid q stocks) := by
    intro q; simp [updateCantidad, hf]
  have hstep1 : (ajustarStock pid delta "incrementar" stocks).2
      = updateCantidadList pid (st.cantidad + delta) stocks := by
    simp [ajustarStock, hf, hupd]
  have hres1 : (ajustarStock pid delta "incrementar" stocks).1
      = .ok st.cantidad (st.cantidad + delta) delta := by
    simp [ajustarStock, hf, hupd]
  refine ⟨hres1, ?_⟩
  rw [hstep1]
  have hf1 : findByProductoId pid (updateCantidadList pid (st.cantidad + delta) stocks)
      = some { st with cantidad := st.cantidad + delta } := by
    rw [findByProductoId_updateCantidadList_self, hf]
    rfl
  have hneg : ¬ ({ st with cantidad := st.cantidad + delta } : StockRecord).cantidad
      - delta < 0 := by
    simp
    omega
  have hupd1 : updateCantidad pid st.cantidad
      (updateCantidadList pid (st.cantidad + delta) stocks) = some stocks := by
    simp [updateCantidad, hf1, updateCantidadList_updateCantidadList,
      updateCantidadList_found_self hf]
  have hnlt : ¬ st.cantidad < 0 := not_lt.mpr hq
  simp [ajustarStock, hf1, hupd1, hnlt]

/-- Closed instance of the C7 round-trip: quantity 5, delta 3, increase then
decrease restores the store. -/
theorem ajustarStock_roundtrip_witness :
    (ajustarStock "P1" 3 "incrementar" [⟨"P1", 5, 5, true⟩]).1
        = .ok 5 8 3 ∧
    ajustarStock "P1" 3 "decrementar"
        (ajustarStock "P1" 3 "incrementar" [⟨"P1", 5, 5, true⟩]).2
      = (.ok 8 5 (-3), [⟨"P1", 5, 5, true⟩]) := by
  have h := ajustarStock_roundtrip "P1" 3 [⟨"P1", 5, 5, true⟩] ⟨"P1", 5, 5, true⟩
    (by decide) (by decide) (by decide)
  simpa using h

/-- C2: when some line item has no active stock record for its product or
requests more than the stored quantity, `crearPedido` fails with the
insufficient-stock error for some product id and returns the world
unchanged: no stock record is modified and no order is persisted, because
the whole validation pass runs before any write. -/
theorem crearPedido_insufficient (productos : List LineItem) (refId : String)
    (year month firstDay ts : Nat) (w : World)
    (h : ∃ item ∈ productos, ∀ st,
      findByProductoId item.productoId w.stocks = some st → st.cantidad < item.cantidad) :
    ∃ pid, crearPedido productos refId year month firstDay ts w
        = (.insufficientStock pid, w) := by
  have hval : validarStock w.stocks productos ≠ none := by
    intro hnone
    rcases h with ⟨item, hitem, hbad⟩
    rcases validarStock_eq_none_iff.mp hnone item hitem with ⟨st, hf, hle⟩
    exact absurd (hbad st hf) (not_lt.mpr hle)
  rcases Option.ne_none_iff_exists.mp hval with ⟨pid, hsome⟩
  exact ⟨pid, by simp [crearPedido, ← hsome]⟩

/-- Closed instance of C2: one line item requesting 9 against a stock of 5
fails and leaves both collections untouched. -/
theorem crearPedido_insufficient_witness :
    (∃ item ∈ [(⟨"P1", 9, 100⟩ : LineItem)], ∀ st : StockRecord,
      findByProductoId item.productoId [⟨"P1", 5, 5, true⟩] = some st
        → st.cantidad < item.cantidad) ∧
    ∃ pid, crearPedido [⟨"P1", 9, 100⟩] "abc" 2025 10 0 5
        ⟨[⟨"P1", 5, 5, true⟩], []⟩
      = (.insufficientStock pid, ⟨[⟨"P1", 5, 5, true⟩], []⟩) := by
  refine ⟨?_, ?_⟩
  · exact ⟨⟨"P1", 9, 100⟩, by decide, by decide⟩
  · exact crearPedido_insufficient [⟨"P1", 9, 100⟩] "abc" 2025 10 0 5
      ⟨[⟨"P1", 5, 5, true⟩], []⟩ ⟨⟨"P1", 9, 100⟩, by decide, by decide⟩

/-- C3: when every line item's product has an active stock record holding at
least the requested quantity, `crearPedido` succeeds: the persisted order
carries total `Σ unitPrice × quantity` from the caller-supplied prices,
status `"pendiente"`, and is appended to the `pedidos` collection; and
afterwards each product's active stock quantity is reduced by exactly the
total quantity requested for that product. -/
theorem crearPedido_success (productos : List LineItem) (refId : String)
    (year month firstDay ts : Nat) (w : World)
    (h : ∀ item ∈ productos, ∃ st,
      findByProductoId item.productoId w.stocks = some st
        ∧ item.cantidad ≤ st.cantidad) :
    ∃ ped stocks',
      crearPedido productos refId year month firstDay ts w
          = (.created ped, ⟨stocks', w.pedidos ++ [ped]⟩)
      ∧ ped.total = (productos.map (fun it => it.precio * it.cantidad)).sum
      ∧ ped.estado = "pendiente"
      ∧ ped.productos = productos
      ∧ ∀ pid, findByProductoId pid stocks'
          = (findByProductoId pid w.stocks).map
              (fun s => { s with cantidad := s.cantidad - requested pid productos }) := by
  have hval : validarStock w.stocks productos = none :=
    validarStock_eq_none_iff.mpr h
  have hsome : ∀ item ∈ productos,
      (findByProductoId item.productoId w.stocks).isSome := by
    intro item hitem
    rcases h item hitem with ⟨st, hf, _⟩
    simp [hf]
  rcases debitStocks_some hsome with ⟨stocks', hdeb, hfind⟩
  refine ⟨⟨refId, generarNumeroPedido year month firstDay w.pedidos, productos,
    totalPedido productos, "pendiente", ts⟩, stocks', ?_, ?_, rfl, rfl, hfind⟩
  · simp [crearPedido, hval, pedidoSave, hdeb]
  · simpa using totalPedido_eq_sum productos

/-- Closed instance of C3, the spec's worked example: items
`[{P1, qty 2, price 100}, {P2, qty 1, price 50}]` against stocks P1 = 5 and
P2 = 3 yield total 250, status pendiente, and stocks 3 and 2. -/
theorem crearPedido_success_witness :
    (∀ item ∈ [(⟨"P1", 2, 100⟩ : LineItem), ⟨"P2", 1, 50⟩], ∃ st,
      findByProductoId item.productoId
          [⟨"P1", 5, 5, true⟩, ⟨"P2", 3, 5, true⟩] = some st
        ∧ item.cantidad ≤ st.cantidad) ∧
    (∃ ped stocks',
      crearPedido [⟨"P1", 2, 100⟩, ⟨"P2", 1, 50⟩] "abc" 2025 10 0 5
          ⟨[⟨"P1", 5, 5, true⟩, ⟨"P2", 3, 5, true⟩], []⟩
          = (.created ped, ⟨stocks', [] ++ [ped]⟩)
      ∧ ped.total = ([(⟨"P1", 2, 100⟩ : LineItem), ⟨"P2", 1, 50⟩].map
          (fun it => it.precio * it.cantidad)).sum
      ∧ ped.estado = "pendiente"
      ∧ ped.productos = [⟨"P1", 2, 100⟩, ⟨"P2", 1, 50⟩]
      ∧ ∀ pid, findByProductoId pid stocks'
          = (findByProductoId pid [⟨"P1", 5, 5, true⟩, ⟨"P2", 3, 5, true⟩]).map
              (fun s => { s with cantidad :=
                s.cantidad - requested pid [⟨"P1", 2, 100⟩, ⟨"P2", 1, 50⟩] })) ∧
    (crearPedido [⟨"P1", 2, 100⟩, ⟨"P2", 1, 50⟩] "abc" 2025 10 0 5
        ⟨[⟨"P1", 5, 5, true⟩, ⟨"P2", 3, 5, true⟩], []⟩).2.stocks
      = [⟨"P1", 3, 5, true⟩, ⟨"P2", 2, 5, true⟩] := by
  refine ⟨by decide, ?_, by decide⟩
  exact crearPedido_success [⟨"P1", 2, 100⟩, ⟨"P2", 1, 50⟩] "abc" 2025 10 0 5
    ⟨[⟨"P1", 5, 5, true⟩, ⟨"P2", 3, 5, true⟩], []⟩ (by decide)

/-- C10 (implicit): the validation pass checks each line item of a placement
independently against the full stored quantity, so a placement
`[{P, a}, {P, b}]` with `a ≤ q` and `b ≤ q` succeeds even when `a + b > q`:
no insufficient-stock error is raised and the re-reading debit pass leaves
P's stored quantity at `q - a - b`, which can be negative. -/
theorem crearPedido_duplicate_items (P refId : String) (q a b pa pb m : Int)
    (year month firstDay ts : Nat) (peds : List Pedido)
    (ha : a ≤ q) (hb : b ≤ q) :
    ∃ ped, crearPedido [⟨P, a, pa⟩, ⟨P, b, pb⟩] refId year month firstDay ts
        ⟨[⟨P, q, m, true⟩], peds⟩
      = (.created ped, ⟨[⟨P, q - a - b, m, true⟩], peds ++ [ped]⟩)
      ∧ ped.estado = "pendiente" := by
  have hfind : findByProductoId P [⟨P, q, m, true⟩] = some ⟨P, q, m, true⟩ := by
    simp [findByProductoId]
  have hval : validarStock [⟨P, q, m, true⟩] [⟨P, a, pa⟩, ⟨P, b, pb⟩] = none := by
    simp [validarStock, hfind, not_lt.mpr ha, not_lt.mpr hb]
  have hupd1 : updateCantidadList P (q - a) [⟨P, q, m, true⟩]
      = [⟨P, q - a, m, true⟩] := by
    simp [updateCantidadList]
  have hfind2 : findByProductoId P [(⟨P, q - a, m, true⟩ : StockRecord)]
      = some ⟨P, q - a, m, true⟩ := by
    simp [findByProductoId]
  have hdeb : debitStocks [⟨P, a, pa⟩, ⟨P, b, pb⟩] [⟨P, q, m, true⟩]
      = some [⟨P, q - a - b, m, true⟩] := by
    simp [debitStocks, hfind, updateCantidad, hupd1, hfind2, updateCantidadList]
  refine ⟨⟨refId, generarNumeroPedido year month firstDay peds,
    [⟨P, a, pa⟩, ⟨P, b, pb⟩], totalPedido [⟨P, a, pa⟩, ⟨P, b, pb⟩],
    "pendiente", ts⟩, ?_, rfl⟩
  simp [crearPedido, hval, hdeb, pedidoSave]

/-- Closed instance of C10: stock 5, items requesting 3 and 4 of the same
product; the placement is accepted and the stored quantity ends at -2. -/
theorem crearPedido_duplicate_items_witness :
    ((3 : Int) ≤ 5 ∧ (4 : Int) ≤ 5) ∧
    (∃ ped, crearPedido [⟨"P1", 3, 100⟩, ⟨"P1", 4, 50⟩] "abc" 2025 10 0 5
          ⟨[⟨"P1", 5, 5, true⟩], []⟩
        = (.created ped, ⟨[⟨"P1", 5 - 3 - 4, 5, true⟩], [] ++ [ped]⟩)
        ∧ ped.estado = "pendiente") ∧
    ((5 : Int) - 3 - 4 < 0) := by
  refine ⟨by decide, ?_, by decide⟩
  exact crearPedido_duplicate_items "P1" "abc" 5 3 4 100 50 5 2025 10 0 5 []
    (by decide) (by decide)

/-- C9: `actualizarEstado` answers the invalid-state error exactly when the
supplied state is not one of the six recognized tokens, and for any
recognized token it overwrites the state of the addressed order without
consulting the current state — in particular `"cancelado"` (cancelled) is
reachable from any prior state, terminal ones included. -/
theorem actualizarEstado_contract (id estado : String) (pedidos : List Pedido) :
    ((actualizarEstado id estado pedidos).1 = .invalidEstado
        ↔ estado ∉ estadosValidos) ∧
    ((actualizarEstado id estado pedidos).1 = .invalidEstado
        → (actualizarEstado id estado pedidos).2 = pedidos) ∧
    (estado ∈ estadosValidos → (∃ p ∈ pedidos, p.id = id) →
      actualizarEstado id estado pedidos
          = (.ok, updateEstadoList id estado pedidos)
      ∧ ∀ p ∈ updateEstadoList id estado pedidos, p.id = id
          → p.estado = estado) := by
  refine ⟨?_, ?_, ?_⟩
  · by_cases hv : estado ∈ estadosValidos
    · by_cases hp : pedidos.any (fun p => p.id = id)
      · simp [actualizarEstado, hv, hp]
      · simp [actualizarEstado, hv, hp]
    · simp [actualizarEstado, hv]
  · intro hres
    by_cases hv : estado ∈ estadosValidos
    · by_cases hp : pedidos.any (fun p => p.id = id)
      · simp [actualizarEstado, hv, hp] at hres
      · simp [actualizarEstado, hv, hp] at hres
    · simp [actualizarEstado, hv]
  · intro hv hex
    have hp : pedidos.any (fun p => p.id = id) := by
      rcases hex with ⟨p, hmem, hid⟩
      exact List.any_eq_true.mpr ⟨p, hmem, by simp [hid]⟩
    refine ⟨by simp [actualizarEstado, hv, hp], ?_⟩
    intro p hmem hid
    rcases List.mem_map.mp hmem with ⟨p0, hp0, hfp⟩
    by_cases h0 : p0.id = id
    · rw [← hfp]
      simp [h0]
    · rw [← hfp] at hid ⊢
      simp [h0] at hid

/-- Closed instance of C9: `"not_a_status"` is rejected, and `"cancelado"`
succeeds on an order whose current state is the terminal `"entregado"`. -/
theorem actualizarEstado_contract_witness :
    ((actualizarEstado "a" "not_a_status"
        [⟨"a", "n", [], 0, "entregado", 0⟩]).1 = .invalidEstado
      ↔ "not_a_status" ∉ estadosValidos) ∧
    ("cancelado" ∈ estadosValidos →
      (∃ p ∈ [(⟨"a", "n", [], 0, "entregado", 0⟩ : Pedido)], p.id = "a") →
      actualizarEstado "a" "cancelado" [⟨"a", "n", [], 0, "entregado", 0⟩]
          = (.ok, updateEstadoList "a" "cancelado"
              [⟨"a", "n", [], 0, "entregado", 0⟩])
        ∧ ∀ p ∈ updateEstadoList "a" "cancelado"
            [⟨"a", "n", [], 0, "entregado", 0⟩], p.id = "a"
            → p.estado = "cancelado") := by
  exact ⟨(actualizarEstado_contract "a" "not_a_status"
      [⟨"a", "n", [], 0, "entregado", 0⟩]).1,
    (actualizarEstado_contract "a" "cancelado"
      [⟨"a", "n", [], 0, "entregado", 0⟩]).2.2⟩

theorem counterAfter_succ (c : String) (n : Nat) :
    counterAfter c (n + 1) = some (getInitialValue c + n) := by
  induction n with
  | zero => rfl
  | succ k ih =>
    show (getNextSequence c (counterAfter c (k + 1))).2
      = some (getInitialValue c + (k + 1))
    rw [ih]
    show some (getInitialValue c + k + 1) = some (getInitialValue c + (k + 1))
    rw [Nat.add_assoc]

/-- In a single-threaded run the value of call number `n` (0-based) is the
collection's configured initial value plus `n`. -/
theorem callValue_eq (c : String) (n : Nat) :
    callValue c n = getInitialValue c + n := by
  cases n with
  | zero => rfl
  | succ k =>
    show (getNextSequence c (counterAfter c (k + 1))).1
      = getInitialValue c + (k + 1)
    rw [counterAfter_succ]
    show getInitialValue c + k + 1 = getInitialValue c + (k + 1)
    rw [Nat.add_assoc]

/-- C4 counterexample: the claim says categories start at 10, but the
configured initial value of the `categorias` counter is 100 (10 is the
`usuarios` seed). -/
theorem getInitialValue_categorias_not_ten :
    getInitialValue "categorias" = 100 ∧ ¬ getInitialValue "categorias" = 10 := by
  decide

/-- C4 (amended): sequential single-threaded calls to the sequence generator
return strictly increasing, pairwise-distinct values whose first value is
the collection's configured initial value; the six configured collections
have pairwise-distinct seeds — products start at 1000 and categories at 100
(users at 10). -/
theorem getNextSequence_contract :
    (∀ c : String, ∀ i j : Nat, i < j → callValue c i < callValue c j) ∧
    (∀ c : String, callValue c 0 = getInitialValue c) ∧
    getInitialValue "productos" = 1000 ∧
    getInitialValue "categorias" = 100 ∧
    (["productos", "pedidos", "categorias", "usuarios", "precios",
        "stocks"].map getInitialValue).Nodup := by
  refine ⟨?_, ?_, by decide, by decide, by decide⟩
  · intro c i j hij
    rw [callValue_eq, callValue_eq]
    omega
  · intro c
    simpa using callValue_eq c 0

/-- Closed instance of the C4 contract: the first two product-sequence calls
return 1000 then 1001. -/
theorem getNextSequence_contract_witness :
    callValue "productos" 0 < callValue "productos" 1
      ∧ callValue "productos" 0 = getInitialValue "productos" := by
  exact ⟨getNextSequence_contract.1 "productos" 0 1 (by decide),
    getNextSequence_contract.2.1 "productos"⟩

/-- C8: the order number minted by `Pedido.save` is exactly
`PED-` + year + zero-padded month + `-` + (count of pedidos created at or
after the first instant of the current month, plus one) zero-padded to 4
digits; and because a Firestore document id never contains a dash, the
number differs from the order's storage identifier, which is carried in a
separate field of the same persisted document. -/
theorem pedidoSave_numero (refId : String) (productos : List LineItem)
    (total : Int) (year month firstDay ts : Nat) (pedidos : List Pedido)
    (hid : '-' ∉ refId.data) :
    (pedidoSave refId productos total "pendiente" year month firstDay ts
        pedidos).1.numero
      = "PED-" ++ toString year ++ padStart 2 '0' (toString month) ++ "-"
        ++ padStart 4 '0'
            (toString ((pedidos.filter
              (fun p => firstDay ≤ p.fechaCreacion)).length + 1)) ∧
    (pedidoSave refId productos total "pendiente" year month firstDay ts
        pedidos).1.id = refId ∧
    (pedidoSave refId productos total "pendiente" year month firstDay ts
          pedidos).1.numero
      ≠ (pedidoSave refId productos total "pendiente" year month firstDay ts
          pedidos).1.id := by
  refine ⟨rfl, rfl, ?_⟩
  show generarNumeroPedido year month firstDay pedidos ≠ refId
  intro he
  apply hid
  rw [← he]
  show '-' ∈ ("PED-" ++ (toString year ++ padStart 2 '0' (toString month) ++ "-"
    ++ padStart 4 '0' (toString ((pedidos.filter
      (fun p => firstDay ≤ p.fechaCreacion)).length + 1)))).data
  rw [String.data_append]
  exact List.mem_append_left _ (by decide)

/-- Closed instance of C8: a save against two prior orders, one of them
created before the current month, mints `PED-202503-0002`, distinct from the
document id `abc`. -/
theorem pedidoSave_numero_witness :
    ('-' ∉ ("abc" : String).data) ∧
    ((pedidoSave "abc" [] 0 "pendiente" 2025 3 100 150
        [⟨"x", "n", [], 0, "pendiente", 150⟩,
         ⟨"y", "n", [], 0, "pendiente", 50⟩]).1.numero
      = "PED-" ++ toString 2025 ++ padStart 2 '0' (toString 3) ++ "-"
        ++ padStart 4 '0' (toString (([⟨"x", "n", [], 0, "pendiente", 150⟩,
            (⟨"y", "n", [], 0, "pendiente", 50⟩ : Pedido)].filter
              (fun p => 100 ≤ p.fechaCreacion)).length + 1))
      ∧ (pedidoSave "abc" [] 0 "pendiente" 2025 3 100 150
          [⟨"x", "n", [], 0, "pendiente", 150⟩,
           ⟨"y", "n", [], 0, "pendiente", 50⟩]).1.id = "abc"
      ∧ (pedidoSave "abc" [] 0 "pendiente" 2025 3 100 150
            [⟨"x", "n", [], 0, "pendiente", 150⟩,
             ⟨"y", "n", [], 0, "pendiente", 50⟩]).1.numero
        ≠ (pedidoSave "abc" [] 0 "pendiente" 2025 3 100 150
            [⟨"x", "n", [], 0, "pendiente", 150⟩,
             ⟨"y", "n", [], 0, "pendiente", 50⟩]).1.id) ∧
    (pedidoSave "abc" [] 0 "pendiente" 2025 3 100 150
        [⟨"x", "n", [], 0, "pendiente", 150⟩,
         ⟨"y", "n", [], 0, "pendiente", 50⟩]).1.numero = "PED-202503-0002" := by
  refine ⟨by decide, ?_, by decide⟩
  exact pedidoSave_numero "abc" [] 0 2025 3 100 150
    [⟨"x", "n", [], 0, "pendiente", 150⟩, ⟨"y", "n", [], 0, "pendiente", 50⟩]
    (by decide)

/-- One quantity-mutating core operation: absolute set-quantity
(`actualizarStock` with a `cantidad` in the body), relative adjust
(`ajustarStock`), or an order placement (`crearPedido`). -/
inductive Op where
  | setCantidad (pid : String) (q : Int)
  | ajuste (pid : String) (cantidad : Int) (tipo : String)
  | pedido (productos : List LineItem) (refId : String)
      (year month firstDay ts : Nat)
  deriving Repr, DecidableEq

/-- State transition of one operation (responses discarded). -/
def applyOp (op : Op) (w : World) : World :=
  match op with
  | .setCantidad pid q =>
    { w with stocks := (actualizarStock pid (some q) w.stocks).2 }
  | .ajuste pid cantidad tipo =>
    { w with stocks := (ajustarStock pid cantidad tipo w.stocks).2 }
  | .pedido productos refId year month firstDay ts =>
    (crearPedido productos refId year month firstDay ts w).2

/-- State after a sequence of operations. -/
def applyOps (ops : List Op) (w : World) : World :=
  ops.foldl (fun w op => applyOp op w) w

/-- Input-side restrictions under which the nonnegativity invariant is
preserved: set-quantity writes a nonnegative value, adjust deltas are
nonnegative, and a placement's line items name pairwise-distinct
products. -/
def opSafe : Op → Prop
  | .setCantidad _ q => 0 ≤ q
  | .ajuste _ cantidad _ => 0 ≤ cantidad
  | .pedido productos _ _ _ _ _ =>
    (productos.map (fun it => it.productoId)).Nodup

instance : DecidablePred opSafe := fun op =>
  match op with
  | .setCantidad _ q => inferInstanceAs (Decidable (0 ≤ q))
  | .ajuste _ cantidad _ => inferInstanceAs (Decidable (0 ≤ cantidad))
  | .pedido productos _ _ _ _ _ =>
    inferInstanceAs
      (Decidable ((productos.map (fun it : LineItem => it.productoId)).Nodup))

/-- C1 counterexample: from the nonnegative state holding quantity 0 for
product P1, the absolute set-quantity operation accepts -1 — the controller
and model perform no nonnegativity check — and the stored quantity becomes
negative. -/
theorem stock_can_go_negative :
    allNonneg (⟨[⟨"P1", 0, 5, true⟩], []⟩ : World).stocks ∧
    ¬ allNonneg (applyOp (.setCantidad "P1" (-1))
        ⟨[⟨"P1", 0, 5, true⟩], []⟩).stocks := by
  constructor
  · decide
  · intro h
    have h2 : (0 : Int) ≤ -1 := h ⟨"P1", -1, 5, true⟩ (by decide)
    exact absurd h2 (by decide)

theorem allNonneg_applyOp {op : Op} {w : World} (hop : opSafe op)
    (hw : allNonneg w.stocks) : allNonneg (applyOp op w).stocks := by
  cases op with
  | setCantidad pid q =>
    cases hf : findByProductoId pid w.stocks with
    | none => simpa [applyOp, actualizarStock, hf] using hw
    | some st =>
      have hupd : updateCantidad pid q w.stocks
          = some (updateCantidadList pid q w.stocks) := by
        simp [updateCantidad, hf]
      have : (applyOp (.setCantidad pid q) w).stocks
          = updateCantidadList pid q w.stocks := by
        simp [applyOp, actualizarStock, hf, hupd]
      rw [this]
      exact allNonneg_updateCantidadList hop hw
  | ajuste pid cantidad tipo =>
    cases hf : findByProductoId pid w.stocks with
    | none => simpa [applyOp, ajustarStock, hf] using hw
    | some st =>
      have hst : (0 : Int) ≤ st.cantidad := hw st (findByProductoId_mem hf)
      have hc : (0 : Int) ≤ cantidad := hop
      have hupd : ∀ q : Int, updateCantidad pid q w.stocks
          = some (updateCantidadList pid q w.stocks) := by
        intro q; simp [updateCantidad, hf]
      by_cases hinc : tipo = "incrementar"
      · have : (applyOp (.ajuste pid cantidad tipo) w).stocks
            = updateCantidadList pid (st.cantidad + cantidad) w.stocks := by
          simp [applyOp, ajustarStock, hf, hinc, hupd]
        rw [this]
        exact allNonneg_updateCantidadList (by omega) hw
      · by_cases hdec : tipo = "decrementar"
        · by_cases hneg : st.cantidad - cantidad < 0
          · simpa [applyOp, ajustarStock, hf, hinc, hdec, hneg] using hw
          · have : (applyOp (.ajuste pid cantidad tipo) w).stocks
                = updateCantidadList pid (st.cantidad - cantidad) w.stocks := by
              simp [applyOp, ajustarStock, hf, hinc, hdec, hneg, hupd]
            rw [this]
            exact allNonneg_updateCantidadList (by omega) hw
        · simpa [applyOp, ajustarStock, hf, hinc, hdec] using hw
  | pedido productos refId year month firstDay ts =>
    cases hval : validarStock w.stocks productos with
    | some pid => simpa [applyOp, crearPedido, hval] using hw
    | none =>
      have hitems := validarStock_eq_none_iff.mp hval
      have hbound : ∀ item ∈ productos, ∀ st,
          findByProductoId item.productoId w.stocks = some st
            → item.cantidad ≤ st.cantidad := by
        intro item hitem st hst
        rcases hitems item hitem with ⟨st', hf', hle'⟩
        rw [hst] at hf'
        cases hf'
        exact hle'
      cases hdeb : debitStocks productos w.stocks with
      | none => simpa [applyOp, crearPedido, hval, hdeb, pedidoSave] using hw
      | some stocks' =>
        have : (applyOp (.pedido productos refId year month firstDay ts) w).stocks
            = stocks' := by
          simp [applyOp, crearPedido, hval, hdeb, pedidoSave]
        rw [this]
        exact allNonneg_debitStocks hw hbound hop hdeb

/-- C1 (amended): starting from any state where every stored quantity is
nonnegative, any sequence of quantity-mutating core operations keeps every
stored quantity nonnegative provided each set-quantity writes a nonnegative
value, each adjust delta is nonnegative, and each placement's line items
name pairwise-distinct products.  Without those provisos the invariant
fails (see the counterexample and the C10 theorem). -/
theorem allNonneg_applyOps (ops : List Op) (w : World)
    (hops : ∀ op ∈ ops, opSafe op) (hw : allNonneg w.stocks) :
    allNonneg (applyOps ops w).stocks := by
  induction ops generalizing w with
  | nil => simpa [applyOps] using hw
  | cons op rest ih =>
    have h1 := allNonneg_applyOp (hops op (List.mem_cons_self op rest)) hw
    have : applyOps (op :: rest) w = applyOps rest (applyOp op w) := rfl
    rw [this]
    exact ih (applyOp op w) (fun o ho => hops o (List.mem_cons_of_mem op ho)) h1

/-- Closed instance of the amended C1: a set, an adjust and a placement,
each within the provisos, keep all quantities nonnegative. -/
theorem allNonneg_applyOps_witness :
    (∀ op ∈ [Op.setCantidad "P1" 4, Op.ajuste "P1" 2 "decrementar",
        Op.pedido [⟨"P1", 1, 10⟩] "r" 2025 1 0 0], opSafe op) ∧
    allNonneg ((⟨[⟨"P1", 3, 5, true⟩], []⟩ : World)).stocks ∧
    allNonneg (applyOps [Op.setCantidad "P1" 4, Op.ajuste "P1" 2 "decrementar",
        Op.pedido [⟨"P1", 1, 10⟩] "r" 2025 1 0 0]
      ⟨[⟨"P1", 3, 5, true⟩], []⟩).stocks := by
  refine ⟨by decide, by decide, ?_⟩
  exact allNonneg_applyOps _ _ (by decide) (by decide)

/-- Closed form of the `precios` collection after saving the prices `ps` for
one product from an empty store: the k-th record carries the k-th price and
the k-th clock tick, and only the last record is active. -/
def historyModel (pid : String) (start : Nat) : List Int → List PrecioRecord
  | [] => []
  | p :: ps =>
    { productoId := pid, precio := p, activo := ps.isEmpty,
      fechaCreacion := start } :: historyModel pid (start + 1) ps

theorem historyModel_length (pid : String) (start : Nat) (ps : List Int) :
    (historyModel pid start ps).length = ps.length := by
  induction ps generalizing start with
  | nil => rfl
  | cons p ps ih => simp [historyModel, ih]

theorem historyModel_all_pid (pid : String) (start : Nat) (ps : List Int) :
    ∀ r ∈ historyModel pid start ps, r.productoId = pid := by
  induction ps generalizing start with
  | nil => intro r hr; simp [historyModel] at hr
  | cons p ps ih =>
    intro r hr
    rcases List.mem_cons.mp hr with rfl | hr'
    · rfl
    · exact ih (start + 1) r hr'

theorem historyModel_fecha_lb (pid : String) (start : Nat) (ps : List Int) :
    ∀ r ∈ historyModel pid start ps, start ≤ r.fechaCreacion := by
  induction ps generalizing start with
  | nil => intro r hr; simp [historyModel] at hr
  | cons p ps ih =>
    intro r hr
    rcases List.mem_cons.mp hr with rfl | hr'
    · exact le_refl _
    · exact le_trans (Nat.le_succ start) (ih (start + 1) r hr')

theorem historyModel_fecha_ub (pid : String) (start : Nat) (ps : List Int) :
    ∀ r ∈ historyModel pid start ps, r.fechaCreacion < start + ps.length := by
  induction ps generalizing start with
  | nil => intro r hr; simp [historyModel] at hr
  | cons p ps ih =>
    intro r hr
    rcases List.mem_cons.mp hr with rfl | hr'
    · show start < start + (p :: ps).length
      simp only [List.length_cons]
      omega
    · have h2 := ih (start + 1) r hr'
      simp only [List.length_cons]
      omega

theorem historyModel_ascending (pid : String) (start : Nat) (ps : List Int) :
    (historyModel pid start ps).Pairwise
      (fun a b => a.fechaCreacion < b.fechaCreacion) := by
  induction ps generalizing start with
  | nil => exact List.Pairwise.nil
  | cons p ps ih =>
    refine List.Pairwise.cons ?_ (ih (start + 1))
    intro r hr
    exact lt_of_lt_of_le (Nat.lt_succ_self start)
      (historyModel_fecha_lb pid (start + 1) ps r hr)

theorem historyModel_active_count (pid : String) (start : Nat) (ps : List Int) :
    ((historyModel pid start ps).filter (fun r => r.activo)).length
      = if ps.isEmpty then 0 else 1 := by
  induction ps generalizing start with
  | nil => rfl
  | cons p ps ih =>
    cases ps with
    | nil => rfl
    | cons q qs =>
      have h2 := ih (start + 1)
      simp only [historyModel, List.isEmpty_cons, List.filter_cons] at h2 ⊢
      simpa using h2

theorem historyModel_active_fecha (pid : String) (start : Nat) (ps : List Int) :
    ∀ r ∈ historyModel pid start ps, r.activo = true
      → r.fechaCreacion + 1 = start + ps.length := by
  induction ps generalizing start with
  | nil => intro r hr; simp [historyModel] at hr
  | cons p ps ih =>
    intro r hr hact
    rcases List.mem_cons.mp hr with rfl | hr'
    · have hempty : ps.isEmpty = true := hact
      have hnil : ps = [] := List.isEmpty_iff.mp hempty
      subst hnil
      rfl
    · have h2 := ih (start + 1) r hr' hact
      simp only [List.length_cons]
      omega

theorem historyModel_append_singleton (pid : String) (start : Nat)
    (ps : List Int) (p : Int) :
    historyModel pid start (ps ++ [p])
      = (historyModel pid start ps).map (fun r => { r with activo := false })
        ++ [{ productoId := pid, precio := p, activo := true,
              fechaCreacion := start + ps.length }] := by
  induction ps generalizing start with
  | nil => simp [historyModel]
  | cons q qs ih =>
    have hne : (qs ++ [p]).isEmpty = false := by simp
    have harith : start + 1 + qs.length = start + (qs.length + 1) := by omega
    simp only [List.cons_append, historyModel, List.append_eq, hne,
      ih (start + 1), List.map_cons, List.length_cons, harith]

theorem retirar_eq_deactivate (pid : String) (r : PrecioRecord)
    (hp : r.productoId = pid) :
    (if r.productoId = pid ∧ r.activo then { r with activo := false } else r)
      = { r with activo := false } := by
  by_cases ha : r.activo
  · rw [if_pos ⟨hp, ha⟩]
  · rw [if_neg (fun h => ha h.2)]
    cases r
    simp at ha
    simp [ha]

/-- Saving the prices `ps` for one product into an empty store yields
exactly the closed-form history: one record per save, in insertion order,
with ticking timestamps, only the last one active. -/
theorem iterateSaves_closed (pid : String) (ps : List Int) (t0 : Nat) :
    iterateSaves pid ps ([], t0) = (historyModel pid t0 ps, t0 + ps.length) := by
  induction ps using List.reverseRecOn with
  | nil => simp [iterateSaves, historyModel]
  | append_singleton qs p ih =>
    have hfold : iterateSaves pid (qs ++ [p]) ([], t0)
        = precioSave pid p (iterateSaves pid qs ([], t0)) := by
      simp [iterateSaves, List.foldl_append]
    have hmap : (historyModel pid t0 qs).map
        (fun r => if r.productoId = pid ∧ r.activo
          then { r with activo := false } else r)
        = (historyModel pid t0 qs).map (fun r => { r with activo := false }) :=
      List.map_congr_left (fun r hr =>
        retirar_eq_deactivate pid r (historyModel_all_pid pid t0 qs r hr))
    rw [hfold, ih]
    show ((historyModel pid t0 qs).map
        (fun r => if r.productoId = pid ∧ r.activo
          then { r with activo := false } else r)
        ++ [{ productoId := pid, precio := p, activo := true,
              fechaCreacion := t0 + qs.length }], t0 + qs.length + 1)
      = (historyModel pid t0 (qs ++ [p]), t0 + (qs ++ [p]).length)
    rw [hmap, historyModel_append_singleton]
    simp [Nat.add_assoc]

theorem insertDesc_of_lt {r : PrecioRecord} {l : List PrecioRecord}
    (h : ∀ y ∈ l, r.fechaCreacion < y.fechaCreacion) :
    insertDesc r l = l ++ [r] := by
  induction l with
  | nil => rfl
  | cons x xs ih =>
    have hx : ¬ x.fechaCreacion ≤ r.fechaCreacion :=
      not_le.mpr (h x (List.mem_cons_self x xs))
    simp [insertDesc, hx, ih (fun y hy => h y (List.mem_cons_of_mem x hy))]

/-- Sorting a list whose timestamps strictly increase left to right into
descending order reverses it. -/
theorem sortByFechaDesc_of_ascending {l : List PrecioRecord}
    (h : l.Pairwise (fun a b => a.fechaCreacion < b.fechaCreacion)) :
    sortByFechaDesc l = l.reverse := by
  induction l with
  | nil => rfl
  | cons x xs ih =>
    have hx := List.pairwise_cons.mp h
    have hstep : sortByFechaDesc (x :: xs) = insertDesc x (sortByFechaDesc xs) := rfl
    rw [hstep, ih hx.2,
      insertDesc_of_lt (fun y hy => hx.1 y (List.mem_reverse.mp hy)),
      List.reverse_cons]

theorem findHistorial_historyModel (pid : String) (t0 : Nat) (ps : List Int) :
    findHistorialByProductoId pid (historyModel pid t0 ps)
      = (historyModel pid t0 ps).reverse := by
  have hfilter : (historyModel pid t0 ps).filter (fun r => r.productoId = pid)
      = historyModel pid t0 ps :=
    List.filter_eq_self.mpr (fun r hr => by
      simp [historyModel_all_pid pid t0 ps r hr])
  rw [findHistorialByProductoId, hfilter]
  exact sortByFechaDesc_of_ascending (historyModel_ascending pid t0 ps)

/-- C5: after K ≥ 1 saves for a product (from an empty store, any starting
clock), the history query returns exactly K records ordered newest-first,
exactly one record is active — the most recently inserted, which tops the
history — and the store still holds all K records (none deleted). -/
theorem precio_history_contract (pid : String) (ps : List Int) (t0 : Nat)
    (hK : ps ≠ []) :
    (findHistorialByProductoId pid (iterateSaves pid ps ([], t0)).1).length
        = ps.length
    ∧ (iterateSaves pid ps ([], t0)).1.length = ps.length
    ∧ (findHistorialByProductoId pid (iterateSaves pid ps ([], t0)).1).Pairwise
        (fun a b => b.fechaCreacion < a.fechaCreacion)
    ∧ ((findHistorialByProductoId pid (iterateSaves pid ps ([], t0)).1).filter
        (fun r => r.activo)).length = 1
    ∧ ∃ r, (findHistorialByProductoId pid (iterateSaves pid ps ([], t0)).1).head?
          = some r
        ∧ r.activo = true
        ∧ ∀ r' ∈ findHistorialByProductoId pid (iterateSaves pid ps ([], t0)).1,
            r'.fechaCreacion ≤ r.fechaCreacion := by
  have hfst : (iterateSaves pid ps ([], t0)).1 = historyModel pid t0 ps := by
    rw [iterateSaves_closed]
  rw [hfst, findHistorial_historyModel]
  refine ⟨by simp [historyModel_length], by simp [historyModel_length], ?_, ?_, ?_⟩
  · rw [List.pairwise_reverse]
    exact historyModel_ascending pid t0 ps
  · rw [List.filter_reverse, List.length_reverse, historyModel_active_count]
    simp [hK]
  · rcases List.eq_nil_or_concat ps with hnil | ⟨qs, p, hqs⟩
    · exact absurd hnil hK
    · subst hqs
      have hconc : qs.concat p = qs ++ [p] := List.concat_eq_append qs p
      refine ⟨⟨pid, p, true, t0 + qs.length⟩, ?_, rfl, ?_⟩
      · rw [List.head?_reverse, hconc, historyModel_append_singleton]
        exact List.getLast?_concat _
      · intro r' hr'
        rw [List.mem_reverse] at hr'
        have hub := historyModel_fecha_ub pid t0 (qs.concat p) r' hr'
        have hlen : (qs.concat p).length = qs.length + 1 := by simp
        show r'.fechaCreacion ≤ t0 + qs.length
        omega

/-- Closed instance of C5: three saves produce a three-record history,
newest first, with only the newest active. -/
theorem precio_history_contract_witness :
    (([10, 20, 30] : List Int) ≠ []) ∧
    ((findHistorialByProductoId "P1"
        (iterateSaves "P1" [10, 20, 30] ([], 0)).1).length = 3
      ∧ (iterateSaves "P1" [10, 20, 30] ([], 0)).1.length = 3
      ∧ ((findHistorialByProductoId "P1"
          (iterateSaves "P1" [10, 20, 30] ([], 0)).1).filter
            (fun r => r.activo)).length = 1) := by
  refine ⟨by decide, ?_, ?_, ?_⟩
  · exact (precio_history_contract "P1" [10, 20, 30] 0 (by decide)).1
  · exact (precio_history_contract "P1" [10, 20, 30] 0 (by decide)).2.1
  · exact (precio_history_contract "P1" [10, 20, 30] 0 (by decide)).2.2.2.1
